import Mathlib

/-!
Verification of the core of `viewer.py` (record normalizer, substring filter,
archive tree renderer, section extraction) against its specification.

JSON values are modelled by the inductive type `Json`. Python objects
(`dict`) are association lists in insertion order; Python `None` is
`Json.null`. JSON numbers are modelled as integers (the behaviours under
scrutiny do not depend on float printing). A Python exception is modelled as
`Except.error`.
-/

inductive Json where
  | null
  | bool (b : Bool)
  | num (n : Int)
  | str (s : String)
  | arr (xs : List Json)
  | obj (kvs : List (String × Json))

/-- First-match association lookup hits are members; the model of `dict.get`
(Python dicts have unique keys, so first-match agrees with dict semantics). -/
theorem lookup_mem {kvs : List (String × Json)} {k : String} {v : Json}
    (h : kvs.lookup k = some v) : (k, v) ∈ kvs := by
  induction kvs with
  | nil => simp [List.lookup] at h
  | cons kv rest ih =>
    obtain ⟨k1, v1⟩ := kv
    rw [List.lookup] at h
    by_cases hk : k = k1
    · subst hk
      rw [show (k == k) = true from beq_self_eq_true k] at h
      cases h
      exact List.mem_cons_self _ _
    · have hb : (k == k1) = false := beq_false_of_ne hk
      rw [hb] at h
      exact List.mem_cons_of_mem _ (ih h)

theorem nested_sizeOf_lt {kvs : List (String × Json)} {k : String} {xs : List Json}
    (h : kvs.lookup k = some (.arr xs)) : sizeOf xs < sizeOf (Json.obj kvs) := by
  have hm := lookup_mem h
  have h1 : sizeOf ((k, Json.arr xs) : String × Json) < sizeOf kvs :=
    List.sizeOf_lt_of_mem hm
  simp at h1 ⊢
  omega

mutual

/-- Computable size of a JSON value (the derived `SizeOf` instance is not
executable for this nested inductive). -/
def jsize (j : Json) : Nat :=
  match j with
  | Json.arr xs => 1 + jsizeL xs
  | Json.obj kvs => 1 + jsizeO kvs
  | _ => 1
termination_by sizeOf j
decreasing_by
  all_goals first | (simp; omega) | simp | omega

def jsizeL (xs : List Json) : Nat :=
  match xs with
  | [] => 1
  | x :: t => 1 + jsize x + jsizeL t
termination_by sizeOf xs
decreasing_by
  all_goals first | (simp; omega) | simp | omega

def jsizeO (kvs : List (String × Json)) : Nat :=
  match kvs with
  | [] => 1
  | (k, v) :: t => 1 + jsize v + jsizeO t
termination_by sizeOf kvs
decreasing_by
  all_goals first | (simp; omega) | simp | omega

end

theorem jsize_pos (j : Json) : 0 < jsize j := by
  cases j <;> simp [jsize]

theorem jsize_mem_obj {k : String} {v : Json} {kvs : List (String × Json)}
    (h : (k, v) ∈ kvs) : jsize v < jsizeO kvs := by
  induction kvs with
  | nil => cases h
  | cons kv t ih =>
    rcases List.mem_cons.mp h with h1 | h1
    · obtain ⟨k1, v1⟩ := kv
      cases h1
      simp [jsizeO]
      omega
    · obtain ⟨k1, v1⟩ := kv
      have := ih h1
      simp [jsizeO]
      omega

theorem jsize_lookup_arr {kvs : List (String × Json)} {k : String} {xs : List Json}
    (h : kvs.lookup k = some (.arr xs)) : jsizeL xs < jsize (Json.obj kvs) := by
  have h1 := jsize_mem_obj (lookup_mem h)
  rw [show jsize (Json.arr xs) = 1 + jsizeL xs from by simp [jsize]] at h1
  rw [show jsize (Json.obj kvs) = 1 + jsizeO kvs from by simp [jsize]]
  omega

/-- Python truthiness (`bool(x)`) on JSON values: `None`, `False`, `0`, `""`,
`[]` and an empty mapping are falsy, everything else truthy. -/
def pyTruthy : Json → Bool
  | Json.null => false
  | Json.bool b => b
  | Json.num n => n != 0
  | Json.str s => s != ""
  | Json.arr xs => !xs.isEmpty
  | Json.obj kvs => !kvs.isEmpty

/-- Model of `d.get(k, default)` on a Python dict. -/
def pyGetD (kvs : List (String × Json)) (k : String) (d : Json) : Json :=
  (kvs.lookup k).getD d

/-- Model of the Python expression `a or b`. -/
def pyOrJ (a b : Json) : Json := if pyTruthy a then a else b

/-- Source: `viewer.py` lines 81-86.
`None` becomes `[]`, a list is returned unchanged, anything else is wrapped
into a one-element list. -/
def ensure_list : Json → List Json
  | Json.null => []
  | Json.arr xs => xs
  | v => [v]

/-!
## Archive tree renderer (`display_archive_tree`, `viewer.py` lines 107-140)

One display node is emitted per loop iteration. The Python list used as the
work stack is popped from its end; we represent the stack with its top at
the head of the list, so Python's seeding `[(entry, 0) for entry in
reversed(entries)]` corresponds to the entries in original order here and
`for nested_entry in reversed(nested_entries): stack.append(...)`
corresponds to prepending the children in original order. `.get` on a
non-mapping entry raises `AttributeError` in Python, modelled by
`Except.error`.
-/

inductive Node where
  | notice (msg : String)
  | entry (level : Nat) (name : Json) (isDir : Bool) (size : Json)
      (meta : List (String × Json))

/-- The per-entry display data computed by the loop body: display name
(fallback chain over the two name fields with Python `or` truthiness,
literal "<unknown>" last), directory marker (truthiness of the
"Это папка" field, default `False`), size (the "size" field, `null`
standing for both absent and `None`, in which case no suffix is shown), and
the metadata mapping minus the name fields and the nested-children field. -/
def mkEntryNode (level : Nat) (kvs : List (String × Json)) : Node :=
  Node.entry level
    (pyOrJ (pyGetD kvs "Имя в архиве" Json.null)
      (pyOrJ (pyGetD kvs "Имя" Json.null) (Json.str "<unknown>")))
    (pyTruthy (pyGetD kvs "Это папка" (Json.bool false)))
    (pyGetD kvs "size" Json.null)
    (kvs.filter (fun kv =>
      !(kv.1 == "Вложенное" || kv.1 == "Имя в архиве" || kv.1 == "Имя")))

def consNode (n : Node) : Except String (List Node) → Except String (List Node)
  | Except.ok t => Except.ok (n :: t)
  | Except.error e => Except.error e

/-- Total size of the entries held in a work stack; the loop's termination
measure on tree-shaped (acyclic) input. -/
def stackSizeJ : List (Json × Nat) → Nat
  | [] => 0
  | (e, _) :: rest => jsize e + stackSizeJ rest

theorem stackSizeJ_append (a b : List (Json × Nat)) :
    stackSizeJ (a ++ b) = stackSizeJ a + stackSizeJ b := by
  induction a with
  | nil => simp [stackSizeJ]
  | cons x t ih =>
    obtain ⟨e, l⟩ := x
    simp [stackSizeJ, ih]
    omega

theorem stackSizeJ_children (xs : List Json) (l : Nat) :
    stackSizeJ (xs.map (fun c => (c, l))) < jsizeL xs := by
  induction xs with
  | nil => simp [stackSizeJ, jsizeL]
  | cons x t ih =>
    simp [stackSizeJ, jsizeL] at ih ⊢
    omega

/-- The nested children pushed by the loop body: the "Вложенное" field when
it holds a list, else nothing. Python pushes only when the field holds a
non-empty list (`isinstance(nested_entries, list) and nested_entries`);
pushing an empty list of children is the identity on the stack, so the empty
and non-list cases coincide with pushing `[]`. -/
def childrenOf (kvs : List (String × Json)) : List Json :=
  match kvs.lookup "Вложенное" with
  | some (Json.arr xs) => xs
  | _ => []

theorem jsizeO_pos (kvs : List (String × Json)) : 0 < jsizeO kvs := by
  cases kvs with
  | nil => simp [jsizeO]
  | cons kv t => obtain ⟨k, v⟩ := kv; simp [jsizeO]

theorem childrenOf_size (kvs : List (String × Json)) :
    jsizeL (childrenOf kvs) < jsize (Json.obj kvs) := by
  rw [childrenOf]
  split
  · exact jsize_lookup_arr (by assumption)
  · have h1 := jsizeO_pos kvs
    rw [show jsize (Json.obj kvs) = 1 + jsizeO kvs from by simp [jsize]]
    simp [jsizeL]
    omega

theorem stack_push_lt (kvs : List (String × Json)) (l m : Nat)
    (rest : List (Json × Nat)) :
    stackSizeJ ((childrenOf kvs).map (fun c => (c, l)) ++ rest) <
      stackSizeJ ((Json.obj kvs, m) :: rest) := by
  rw [stackSizeJ_append]
  have h1 := childrenOf_size kvs
  have h2 := stackSizeJ_children (childrenOf kvs) l
  simp [stackSizeJ]
  omega

/-- The while loop of `display_archive_tree`: pop an entry, emit its node,
and push its nested children (if any) at `depth + 1` so that they are
visited before the remaining stack. -/
def run (stack : List (Json × Nat)) : Except String (List Node) :=
  match stack with
  | [] => Except.ok []
  | (entry, level) :: rest =>
    match entry with
    | Json.obj kvs =>
      consNode (mkEntryNode level kvs)
        (run ((childrenOf kvs).map (fun c => (c, level + 1)) ++ rest))
    | _ => Except.error "AttributeError: entry is not a mapping"
termination_by stackSizeJ stack
decreasing_by
  exact stack_push_lt kvs _ _ _

/-- Source: `viewer.py` lines 107-140. A non-list input yields a single
"not an archive" notice, an empty list a single "no content" notice,
otherwise the stack-based traversal runs on the stack seeded with the
entries (in original pop order, see the module comment). -/
def display_archive_tree (entries : Json) : Except String (List Node) :=
  match entries with
  | Json.arr xs =>
    if xs.isEmpty then Except.ok [Node.notice "Нет Содержимого"]
    else run (xs.map (fun e => (e, 0)))
  | _ => Except.ok [Node.notice "Файл не является архивом."]

mutual

/-- Well-formed archive-entry trees: the entry is a mapping and all nested
children are again well-formed entry trees. This is the data-model shape of
§3 (ArchiveEntry); on it the loop pops only mappings, so no
`AttributeError` occurs. -/
def isEntryTreeB (j : Json) : Bool :=
  match j with
  | Json.obj kvs => isEntryForestB (childrenOf kvs)
  | _ => false
termination_by jsize j
decreasing_by
  exact childrenOf_size kvs

def isEntryForestB (xs : List Json) : Bool :=
  match xs with
  | [] => true
  | x :: t => isEntryTreeB x && isEntryForestB t
termination_by jsizeL xs
decreasing_by
  all_goals simp [jsizeL] <;> omega

end

mutual

/-- Pre-order flattening of one entry tree at a given depth: the entry's own
node first, then the pre-order flattening of its nested children at
`depth + 1`. -/
def preorderNodes (level : Nat) (j : Json) : List Node :=
  match j with
  | Json.obj kvs =>
    mkEntryNode level kvs :: preorderForest (level + 1) (childrenOf kvs)
  | _ => []
termination_by jsize j
decreasing_by
  exact childrenOf_size kvs

/-- Pre-order flattening of a forest of entry trees, left to right. -/
def preorderForest (level : Nat) (xs : List Json) : List Node :=
  match xs with
  | [] => []
  | x :: t => preorderNodes level x ++ preorderForest level t
termination_by jsizeL xs
decreasing_by
  all_goals simp [jsizeL] <;> omega

end

def preorderOfStack (stack : List (Json × Nat)) : List Node :=
  match stack with
  | [] => []
  | (e, l) :: rest => preorderNodes l e ++ preorderOfStack rest

theorem preorderOfStack_append (a b : List (Json × Nat)) :
    preorderOfStack (a ++ b) = preorderOfStack a ++ preorderOfStack b := by
  induction a with
  | nil => simp [preorderOfStack]
  | cons x t ih =>
    obtain ⟨e, l⟩ := x
    simp [preorderOfStack, ih]

theorem preorderOfStack_children (xs : List Json) (l : Nat) :
    preorderOfStack (xs.map (fun c => (c, l))) = preorderForest l xs := by
  induction xs with
  | nil => simp [preorderOfStack, preorderForest]
  | cons x t ih => simp [preorderOfStack, preorderForest, ih]

theorem isEntryForestB_iff (xs : List Json) :
    isEntryForestB xs = true ↔ ∀ x ∈ xs, isEntryTreeB x = true := by
  induction xs with
  | nil => simp [isEntryForestB]
  | cons x t ih => simp [isEntryForestB, ih]

/-- On well-formed stacks the loop returns exactly the concatenated pre-order
flattenings of the stacked trees at their recorded depths. -/
theorem run_eq_preorder (stack : List (Json × Nat))
    (hwf : ∀ p ∈ stack, isEntryTreeB p.1 = true) :
    run stack = Except.ok (preorderOfStack stack) := by
  induction stack using run.induct with
  | case1 => simp [run, preorderOfStack]
  | case2 level rest kvs ih =>
    have hhd : isEntryTreeB (Json.obj kvs) = true := hwf _ (List.mem_cons_self _ _)
    have hrest : ∀ p ∈ rest, isEntryTreeB p.1 = true :=
      fun p hp => hwf p (List.mem_cons_of_mem _ hp)
    have hkids : ∀ x ∈ childrenOf kvs, isEntryTreeB x = true := by
      rw [isEntryTreeB] at hhd
      exact (isEntryForestB_iff _).mp hhd
    have hstack : ∀ p ∈ (childrenOf kvs).map (fun c => (c, level + 1)) ++ rest,
        isEntryTreeB p.1 = true := by
      intro p hp
      rcases List.mem_append.mp hp with hp1 | hp1
      · obtain ⟨c, hc, rfl⟩ := List.mem_map.mp hp1
        exact hkids c hc
      · exact hrest p hp1
    rw [run, ih hstack]
    simp [consNode, preorderOfStack, preorderNodes,
      preorderOfStack_append, preorderOfStack_children]
  | case3 entry level rest hobj =>
    have hhd := hwf _ (List.mem_cons_self _ _)
    cases entry with
    | obj kvs => exact (hobj kvs rfl).elim
    | null => simp [isEntryTreeB] at hhd
    | bool b => simp [isEntryTreeB] at hhd
    | num n => simp [isEntryTreeB] at hhd
    | str s => simp [isEntryTreeB] at hhd
    | arr xs => simp [isEntryTreeB] at hhd

/-- C1: the archive tree renderer visits entries in pre-order depth-first
order: seeding the stack with the entries in reverse Python-list order (top
of stack first, see the module comment) and pushing a popped entry's nested
children in reverse order at `depth + 1` makes the flattened visitation
order the left-to-right pre-order of the entry forest. -/
theorem display_archive_tree_preorder (entries : List Json) (hne : entries ≠ [])
    (hwf : ∀ e ∈ entries, isEntryTreeB e = true) :
    display_archive_tree (Json.arr entries) =
      Except.ok (preorderForest 0 entries) := by
  rw [display_archive_tree]
  rw [if_neg (by simpa using hne)]
  rw [run_eq_preorder]
  · rw [preorderOfStack_children]
  · intro p hp
    obtain ⟨e, he, rfl⟩ := List.mem_map.mp hp
    exact hwf e he

def exA1C1 : Json := Json.obj [("Имя", Json.str "A1"), ("size", Json.num 10)]

def exA2C1 : Json := Json.obj [("Имя", Json.str "A2")]

def exAC1 : Json :=
  Json.obj [("Имя", Json.str "A"), ("Вложенное", Json.arr [exA1C1, exA2C1])]

def exBC1 : Json := Json.obj [("Имя", Json.str "B"), ("Это папка", Json.bool true)]

/-- Witness for C1 at the claim's own example: entries `[A, B]` with `A`
having nested children `[A1, A2]` are visited in the flattened order
`A, A1, A2, B`, at depths 0, 1, 1, 0. -/
theorem display_archive_tree_preorder_witness :
    ([exAC1, exBC1] ≠ ([] : List Json))
      ∧ (∀ e ∈ [exAC1, exBC1], isEntryTreeB e = true)
      ∧ display_archive_tree (Json.arr [exAC1, exBC1]) = Except.ok
          [Node.entry 0 (Json.str "A") false Json.null [],
           Node.entry 1 (Json.str "A1") false (Json.num 10) [("size", Json.num 10)],
           Node.entry 1 (Json.str "A2") false Json.null [],
           Node.entry 0 (Json.str "B") true Json.null [("Это папка", Json.bool true)]] := by
  have hwf : ∀ e ∈ [exAC1, exBC1], isEntryTreeB e = true := by
    intro e he
    rcases List.mem_cons.mp he with rfl | he1
    · simp [exAC1, exA1C1, exA2C1, isEntryTreeB, isEntryForestB, childrenOf,
        List.lookup]
    rcases List.mem_cons.mp he1 with rfl | he2
    · simp [exBC1, isEntryTreeB, isEntryForestB, childrenOf, List.lookup]
    · cases he2
  refine ⟨by simp, hwf, ?_⟩
  rw [display_archive_tree_preorder [exAC1, exBC1] (by simp) hwf]
  simp [exAC1, exA1C1, exA2C1, exBC1, preorderForest, preorderNodes, childrenOf,
    mkEntryNode, pyGetD, pyOrJ, pyTruthy, List.lookup]

/-- C8: the archive tree renderer never throws on bad input: a non-sequence
top-level value yields exactly one "not an archive" notice node, and the
empty sequence yields exactly one "no content" notice node. -/
theorem display_archive_tree_robust :
    (∀ j : Json, (∀ xs : List Json, j ≠ Json.arr xs) →
      display_archive_tree j = Except.ok [Node.notice "Файл не является архивом."])
    ∧ display_archive_tree (Json.arr []) =
        Except.ok [Node.notice "Нет Содержимого"] := by
  constructor
  · intro j hj
    cases j with
    | arr xs => exact (hj xs rfl).elim
    | null => rfl
    | bool b => rfl
    | num n => rfl
    | str s => rfl
    | obj kvs => rfl
  · rfl

/-- Witness for C8: a number as top-level value yields the single "not an
archive" notice; the empty list yields the single "no content" notice. -/
theorem display_archive_tree_robust_witness :
    display_archive_tree (Json.num 5) =
        Except.ok [Node.notice "Файл не является архивом."]
      ∧ display_archive_tree (Json.arr []) =
        Except.ok [Node.notice "Нет Содержимого"] :=
  ⟨display_archive_tree_robust.1 (Json.num 5) (fun xs h => Json.noConfusion h),
   display_archive_tree_robust.2⟩

/-!
## Termination of the tree traversal (C2)

Python dictionaries are mutable references, so an entry's nested-children
list can contain the entry itself; the inductive `Json` cannot represent
such heaps. To settle termination questions the while loop of
`display_archive_tree` is additionally modelled over an explicit heap
`env : Nat → List Nat` mapping an entry id to the ids held in its
"Вложенное" list (`[]` when the field is absent, not a list, or empty —
exactly the cases in which the loop pushes nothing). One `treeStep` is one
iteration of the loop: pop the top entry, push its children at `depth + 1`.
The emitted display nodes do not influence control flow and are omitted
here; `runFuel` below is the node-level loop with an explicit iteration
budget.
-/

def treeStep (env : Nat → List Nat) : List (Nat × Nat) → List (Nat × Nat)
  | [] => []
  | (i, level) :: rest => (env i).map (fun c => (c, level + 1)) ++ rest

def treeRun (env : Nat → List Nat) : Nat → List (Nat × Nat) → List (Nat × Nat)
  | 0, stack => stack
  | n + 1, stack => treeRun env n (treeStep env stack)

/-- The loop has terminated once the work stack is empty (an empty stack
stays empty under `treeStep`). -/
def TreeTerminates (env : Nat → List Nat) (stack : List (Nat × Nat)) : Prop :=
  ∃ n, treeRun env n stack = []

/-- A heap with a single self-referential entry: the nested-children list of
entry `0` contains entry `0` itself. -/
def selfEnv : Nat → List Nat := fun _ => [0]

theorem treeRun_selfEnv (n d : Nat) :
    treeRun selfEnv n [(0, d)] = [(0, d + n)] := by
  induction n generalizing d with
  | zero => simp [treeRun]
  | succ m ih =>
    rw [treeRun, treeStep]
    simp only [selfEnv, List.map, List.nil_append, List.cons_append]
    rw [ih (d + 1)]
    simp
    omega

/-- C2 counterexample: on the self-referential entry the while loop of
`display_archive_tree` never terminates — after `n` iterations the stack
still holds the entry (at depth `n`), for every `n`. The claim asserts
termination after a bounded depth for every input including cycles; the
code performs no cycle detection or depth capping. -/
theorem display_tree_cycle_diverges : ¬ TreeTerminates selfEnv [(0, 0)] := by
  rintro ⟨n, hn⟩
  rw [treeRun_selfEnv n 0] at hn
  cases hn

/-- Fuelled version of `run`: `none` means the while loop has not finished
within the given number of iterations. -/
def runFuel (fuel : Nat) (stack : List (Json × Nat)) :
    Option (Except String (List Node)) :=
  match fuel, stack with
  | 0, _ :: _ => none
  | _, [] => some (Except.ok [])
  | fuel + 1, (entry, level) :: rest =>
    match entry with
    | Json.obj kvs =>
      Option.map (consNode (mkEntryNode level kvs))
        (runFuel fuel ((childrenOf kvs).map (fun c => (c, level + 1)) ++ rest))
    | _ => some (Except.error "AttributeError: entry is not a mapping")

theorem runFuel_complete (fuel : Nat) (stack : List (Json × Nat))
    (hf : stackSizeJ stack < fuel) : runFuel fuel stack = some (run stack) := by
  induction fuel generalizing stack with
  | zero => omega
  | succ f ih =>
    match stack with
    | [] => rw [runFuel, run]
    | (entry, level) :: rest =>
      cases entry with
      | obj kvs =>
        rw [runFuel, run]
        rw [ih _ (by have := stack_push_lt kvs (level + 1) level rest; omega)]
        rfl
      | null => rw [runFuel, run] <;> exact fun kvs h1 => Json.noConfusion h1
      | bool b => rw [runFuel, run] <;> exact fun kvs h1 => Json.noConfusion h1
      | num n => rw [runFuel, run] <;> exact fun kvs h1 => Json.noConfusion h1
      | str s => rw [runFuel, run] <;> exact fun kvs h1 => Json.noConfusion h1
      | arr xs => rw [runFuel, run] <;> exact fun kvs h1 => Json.noConfusion h1

/-- C2 amended: the renderer performs no cycle detection (see
`display_tree_cycle_diverges`), but on every input representable as a finite
entry forest the while loop terminates, within at most `total size + 1`
iterations, and returns the value of the total function `run`. -/
theorem display_tree_terminates_bounded (entries : List Json) :
    runFuel (stackSizeJ (entries.map (fun e => (e, 0))) + 1)
        (entries.map (fun e => (e, 0))) =
      some (run (entries.map (fun e => (e, 0)))) :=
  runFuel_complete _ _ (by omega)

/-!
## Tables and the substring filter (`quick_filter_df`, `viewer.py` lines 95-105)

A pandas DataFrame is modelled as a column list plus rows of cells aligned
with the columns. A cell is either the missing-value marker `NaN` (what
`pd.json_normalize` inserts for keys a record lacks) or a JSON value.

`df[col].astype(str)` renders every cell with Python `str()`: the marker
`NaN` renders as "nan", `None` as "None", booleans as "True"/"False" and
containers via `repr` of their elements. (Caveat: pandas dtype inference can
promote an integer column containing `NaN` to float, rendering `1` as
"1.0", and an explicit `None` in a numeric column becomes `NaN`; cells are
rendered here individually, with object-dtype semantics. The theorems below
do not depend on which canonical rendering a number gets.) `repr` of a
string is modelled without escaping, exact for strings free of quotes,
backslashes and control characters.
-/

inductive Cell where
  | nan
  | val (v : Json)

structure Table where
  cols : List String
  rows : List (List Cell)

mutual

/-- Python `repr` on JSON-shaped values. -/
def pyRepr (j : Json) : String :=
  match j with
  | Json.null => "None"
  | Json.bool true => "True"
  | Json.bool false => "False"
  | Json.num n => toString n
  | Json.str s => "\x27" ++ s ++ "\x27"
  | Json.arr xs => "[" ++ pyReprList xs ++ "]"
  | Json.obj kvs => "\x7b" ++ pyReprObj kvs ++ "\x7d"
termination_by sizeOf j
decreasing_by
  all_goals first | (simp; omega) | simp | omega

def pyReprList (xs : List Json) : String :=
  match xs with
  | [] => ""
  | [x] => pyRepr x
  | x :: t => pyRepr x ++ ", " ++ pyReprList t
termination_by sizeOf xs
decreasing_by
  all_goals first | (simp; omega) | simp | omega

def pyReprObj (kvs : List (String × Json)) : String :=
  match kvs with
  | [] => ""
  | [(k, v)] => "\x27" ++ k ++ "\x27: " ++ pyRepr v
  | (k, v) :: t => "\x27" ++ k ++ "\x27: " ++ pyRepr v ++ ", " ++ pyReprObj t
termination_by sizeOf kvs
decreasing_by
  all_goals first | (simp; omega) | simp | omega

end

/-- Python `str()`: the string itself for strings, `repr` otherwise. -/
def pyStr (j : Json) : String :=
  match j with
  | Json.str s => s
  | v => pyRepr v

/-- `astype(str)` rendering of one cell: the missing-value marker renders as
"nan" (not the empty string). -/
def pyCellStr : Cell → String
  | Cell.nan => "nan"
  | Cell.val v => pyStr v

/-- Python `str.lower()` (modelled with `Char.toLower`, exact on ASCII). -/
def pyLower (s : String) : String := String.mk (s.data.map Char.toLower)

/-!
`series.str.contains(q, na=False)` treats `q` as a regular expression
(`regex=True` is the pandas default), matched with `re.search`. The
fragment modelled faithfully here: patterns built from literal characters,
the wildcard `.` and the repetition `*`. Patterns that are invalid regexes
(a repeat with nothing to apply to) raise `re.error` in Python; the
`except` in `quick_filter_df` then skips the column, which leaves the mask
unchanged — exactly the `none => false` branch below. Patterns using the
remaining metacharacters (`^ $ + ? [ ] \ | ( )` and braces) are outside the
modelled fragment and also map to `none`. All theorems that depend on
matching restrict to patterns inside the fragment.
-/

inductive RAtom where
  | lit (c : Char)
  | dot

inductive RPiece where
  | once (a : RAtom)
  | star (a : RAtom)

/-- The characters Python's `re` treats specially. -/
def metaChars : List Char :=
  ['.', '\x5e', '$', '*', '+', '?', '\x7b', '\x7d', '[', ']', '\\', '|', '(', ')']

def atomOf (c : Char) : Option RAtom :=
  if c = '.' then some RAtom.dot
  else if metaChars.contains c then none
  else some (RAtom.lit c)

def startsStar : List Char → Bool
  | '*' :: _ => true
  | _ => false

def parsePieces : List Char → Option (List RPiece)
  | [] => some []
  | [c] =>
    match atomOf c with
    | none => none
    | some a => some [RPiece.once a]
  | c :: d :: rest =>
    match atomOf c with
    | none => none
    | some a =>
      if d = '*' then
        if startsStar rest then none
        else Option.map (fun ps => RPiece.star a :: ps) (parsePieces rest)
      else Option.map (fun ps => RPiece.once a :: ps) (parsePieces (d :: rest))

def amatch : RAtom → Char → Bool
  | RAtom.lit c, d => c == d
  | RAtom.dot, d => d != '\n'

/-- Does the piece list match some prefix-consuming parse of `cs`? (Boolean
matching; greediness is irrelevant for `re.search` truthiness.) -/
def matchPre : List RPiece → List Char → Bool
  | [], _ => true
  | RPiece.once a :: ps, [] => false
  | RPiece.once a :: ps, c :: cs => amatch a c && matchPre ps cs
  | RPiece.star a :: ps, cs =>
    matchPre ps cs ||
      (match cs with
       | [] => false
       | c :: cs2 => amatch a c && matchPre (RPiece.star a :: ps) cs2)
termination_by ps cs => (cs.length, ps.length)

/-- `re.search` truthiness: the pattern matches starting at some position. -/
def rSearch (ps : List RPiece) (s : List Char) : Bool :=
  match s with
  | [] => matchPre ps []
  | c :: t => matchPre ps (c :: t) || rSearch ps t

def pyStrContains (s pat : String) : Bool :=
  match parsePieces pat.data with
  | some ps => rSearch ps s.data
  | none => false

/-- Plain substring containment of `needle` in `hay` (some suffix of `hay`
starts with `needle`). -/
def isSubB (needle : List Char) (hay : List Char) : Bool :=
  match hay with
  | [] => needle.isPrefixOf []
  | c :: t => needle.isPrefixOf (c :: t) || isSubB needle t

/-- A pattern free of regex metacharacters (matched literally). -/
def isLitB (q : String) : Bool := q.data.all (fun c => !(metaChars.contains c))

def cellMatches (q : String) (c : Cell) : Bool :=
  pyStrContains (pyLower (pyCellStr c)) q

/-- Source: `viewer.py` lines 95-105. Empty query or empty frame (`df.empty`
is true when there are no rows or no columns) returns the frame unchanged;
otherwise the query is lowercased and a row is kept iff some column's
lowered textual rendering matches it (`mask = mask | ...` over the
columns). -/
def quick_filter_df (df : Table) (q : String) : Table :=
  if q = "" || df.rows.isEmpty || df.cols.isEmpty then df
  else Table.mk df.cols (df.rows.filter (fun r => r.any (cellMatches (pyLower q))))

def litPieces (cs : List Char) : List RPiece :=
  cs.map (fun c => RPiece.once (RAtom.lit c))

theorem matchPre_lit (cs : List Char) : ∀ s : List Char,
    matchPre (litPieces cs) s = cs.isPrefixOf s := by
  induction cs with
  | nil => intro s; cases s <;> simp [litPieces, matchPre, List.isPrefixOf]
  | cons c ct ih =>
    intro s
    simp only [litPieces] at ih
    cases s with
    | nil => simp [litPieces, matchPre, List.isPrefixOf]
    | cons d ds => simp [litPieces, matchPre, List.isPrefixOf, amatch, ih]

theorem rSearch_lit (cs s : List Char) :
    rSearch (litPieces cs) s = isSubB cs s := by
  induction s with
  | nil => simp [rSearch, isSubB, matchPre_lit]
  | cons c t ih => simp [rSearch, isSubB, matchPre_lit, ih]

theorem atomOf_lit {c : Char} (h : metaChars.contains c = false) :
    atomOf c = some (RAtom.lit c) := by
  have hdot : ¬ (c = '.') := by
    intro hc
    subst hc
    rw [show metaChars.contains '.' = true from by decide] at h
    cases h
  have h2 : c ∉ metaChars := by simpa using h
  simp [atomOf, hdot, h2]

/-- A pattern free of metacharacters parses to the literal piece list. -/
theorem parsePieces_lit (q : List Char) :
    (∀ c ∈ q, metaChars.contains c = false) → parsePieces q = some (litPieces q) := by
  induction q using parsePieces.induct with
  | case1 => intro h; simp [parsePieces, litPieces]
  | case2 c hnone =>
    intro h
    rw [atomOf_lit (h c (List.mem_singleton_self c))] at hnone
    cases hnone
  | case3 c a hsome =>
    intro h
    rw [atomOf_lit (h c (List.mem_singleton_self c))] at hsome
    cases hsome
    rw [parsePieces, atomOf_lit (h c (List.mem_singleton_self c))]
    simp [litPieces]
  | case4 c d rest hnone =>
    intro h
    rw [atomOf_lit (h c (List.mem_cons_self _ _))] at hnone
    cases hnone
  | case5 c rest a hsome hstar =>
    intro h
    have := h '*' (List.mem_cons_of_mem _ (List.mem_cons_self _ _))
    rw [show metaChars.contains '*' = true from by decide] at this
    cases this
  | case6 c rest a hsome hstar ih =>
    intro h
    have := h '*' (List.mem_cons_of_mem _ (List.mem_cons_self _ _))
    rw [show metaChars.contains '*' = true from by decide] at this
    cases this
  | case7 c d rest a hsome hd ih =>
    intro h
    rw [atomOf_lit (h c (List.mem_cons_self _ _))] at hsome
    cases hsome
    rw [parsePieces, atomOf_lit (h c (List.mem_cons_self _ _))]
    simp [hd, ih (fun x hx => h x (List.mem_cons_of_mem _ hx)), litPieces]

/-- On metacharacter-free patterns `str.contains` is literal substring
containment. -/
theorem pyStrContains_lit (s q : String) (h : isLitB q = true) :
    pyStrContains s q = isSubB q.data s.data := by
  have h1 : ∀ c ∈ q.data, metaChars.contains c = false := by
    intro c hc
    have := (List.all_eq_true.mp h) c hc
    simpa using this
  rw [pyStrContains, parsePieces_lit q.data h1]
  exact rSearch_lit q.data s.data

/-- The textual rendering the claim describes: absent/null cells render as
the empty string (this is NOT what pandas does — `astype(str)` renders the
missing-value marker as "nan" and `None` as "None"). -/
def claimCellStr : Cell → String
  | Cell.nan => ""
  | Cell.val Json.null => ""
  | Cell.val v => pyStr v

def exT3 : Table := Table.mk ["a", "b"]
  [[Cell.val (Json.str "x"), Cell.nan], [Cell.nan, Cell.val (Json.str "y")]]

/-- C3 counterexample: on the table with rows `{a: "x"}` and `{b: "y"}`
(each missing one column) and the non-empty query "nan", no cell contains
"nan" under the claim's rendering (absent renders as ""), so the claim says
no row is kept; the code keeps both rows, because pandas `astype(str)`
renders a missing cell as the string "nan". -/
theorem quick_filter_absent_matches :
    (quick_filter_df exT3 "nan").rows = exT3.rows
      ∧ (∀ r ∈ exT3.rows, ∀ c ∈ r,
          isSubB (pyLower "nan").data (pyLower (claimCellStr c)).data = false) := by
  constructor
  · simp [quick_filter_df, exT3, cellMatches, pyStrContains, pyLower, pyCellStr,
      pyStr, pyRepr, parsePieces, atomOf, metaChars, startsStar, rSearch,
      matchPre, amatch, litPieces]
  · intro r hr c hc
    rcases List.mem_cons.mp hr with rfl | hr1
    · rcases List.mem_cons.mp hc with rfl | hc1
      · simp [claimCellStr, pyLower, pyStr, isSubB, List.isPrefixOf]
      rcases List.mem_cons.mp hc1 with rfl | hc2
      · simp [claimCellStr, pyLower, isSubB, List.isPrefixOf]
      · cases hc2
    rcases List.mem_cons.mp hr1 with rfl | hr2
    · rcases List.mem_cons.mp hc with rfl | hc1
      · simp [claimCellStr, pyLower, isSubB, List.isPrefixOf]
      rcases List.mem_cons.mp hc1 with rfl | hc2
      · simp [claimCellStr, pyLower, pyStr, isSubB, List.isPrefixOf]
      · cases hc2
    · cases hr2

/-- C3 amended: for every table with at least one column and every non-empty
query that is literal after case-folding (no regex metacharacters — pandas
`str.contains` treats the query as a regular expression), a row is kept iff
at least one cell's textual rendering, case-folded, contains the folded
query as a substring, where a missing cell renders as "nan" (and an
explicit `None` as "None"), not as the empty string. -/
theorem quick_filter_substring_spec (df : Table) (q : String) (hq : ¬ (q = ""))
    (hl : isLitB (pyLower q) = true) (hc : ¬ (df.cols = [])) :
    quick_filter_df df q = Table.mk df.cols (df.rows.filter
      (fun r => r.any
        (fun c => isSubB (pyLower q).data (pyLower (pyCellStr c)).data))) := by
  obtain ⟨cols, rows⟩ := df
  simp only [Table.mk.injEq] at hc ⊢
  have hcell : cellMatches (pyLower q) =
      fun c => isSubB (pyLower q).data (pyLower (pyCellStr c)).data := by
    funext c
    rw [cellMatches, pyStrContains_lit _ _ hl]
  by_cases hr : rows.isEmpty
  · rw [List.isEmpty_iff] at hr
    subst hr
    simp [quick_filter_df, hq]
  · rw [quick_filter_df]
    rw [if_neg (by simp_all)]
    simp only [hcell]

def exT3w : Table :=
  Table.mk ["a"] [[Cell.val (Json.str "Abc")], [Cell.val (Json.str "d")]]

/-- Witness for C3 (amended) at a concrete table: the literal query "BC"
keeps exactly the row whose cell "Abc" contains "bc" after case-folding. -/
theorem quick_filter_substring_spec_witness :
    (¬ (("BC" : String) = "")) ∧ isLitB (pyLower "BC") = true
      ∧ (¬ (exT3w.cols = []))
      ∧ quick_filter_df exT3w "BC" =
          Table.mk ["a"] [[Cell.val (Json.str "Abc")]] := by
  refine ⟨by decide, by decide, by simp [exT3w], ?_⟩
  rw [quick_filter_substring_spec exT3w "BC" (by decide) (by decide)
    (by simp [exT3w])]
  simp [exT3w, isSubB, pyLower, pyCellStr, pyStr, List.isPrefixOf]

/-- C6: the filter is the identity on the empty query and on empty tables,
and idempotent for every query (whatever rows the row predicate keeps, it
keeps them again). -/
theorem quick_filter_identity_idempotent :
    (∀ df : Table, quick_filter_df df "" = df)
    ∧ (∀ (df : Table) (q : String), df.rows = [] → quick_filter_df df q = df)
    ∧ (∀ (df : Table) (q : String),
        quick_filter_df (quick_filter_df df q) q = quick_filter_df df q) := by
  refine ⟨fun df => by simp [quick_filter_df],
    fun df q h => by simp [quick_filter_df, h], ?_⟩
  intro df q
  by_cases hg : (decide (q = "") || df.rows.isEmpty || df.cols.isEmpty) = true
  · have h1 : quick_filter_df df q = df := by rw [quick_filter_df, if_pos hg]
    rw [h1]
    exact h1
  · simp only [Bool.or_eq_true, decide_eq_true_eq, not_or] at hg
    obtain ⟨⟨hq, hrow⟩, hcol⟩ := hg
    have h1 : quick_filter_df df q =
        Table.mk df.cols (df.rows.filter (fun r => r.any (cellMatches (pyLower q)))) := by
      rw [quick_filter_df, if_neg (by simp [hq, hrow, hcol])]
    rw [h1]
    by_cases hf : (df.rows.filter (fun r => r.any (cellMatches (pyLower q)))).isEmpty
    · rw [quick_filter_df, if_pos (by simp [hf])]
    · rw [quick_filter_df, if_neg (by simp [hq, hf, hcol])]
      rw [List.filter_eq_self.mpr (fun r hr => (List.mem_filter.mp hr).2)]

/-- Witness for C6 at a concrete empty table. -/
theorem quick_filter_identity_idempotent_witness :
    (Table.mk ["a"] ([] : List (List Cell))).rows = []
      ∧ quick_filter_df (Table.mk ["a"] []) "x" = Table.mk ["a"] [] :=
  ⟨rfl, quick_filter_identity_idempotent.2.1 (Table.mk ["a"] []) "x" rfl⟩

def exT7 : Table := Table.mk ["a"] [[Cell.val (Json.str "b")]]

/-- C7 counterexample: pandas treats the query as a regular expression, so
extending the query "a" by "*" gives the pattern "a*", which `re.search`
matches against every string (zero repetitions of "a"); the row "b" is kept
by the extended query but dropped by "a", refuting the subset claim. -/
theorem quick_filter_monotone_counterexample :
    ¬ ((quick_filter_df exT7 ("a" ++ "*")).rows ⊆
        (quick_filter_df exT7 "a").rows) := by
  intro h
  have h1 : [Cell.val (Json.str "b")] ∈ (quick_filter_df exT7 ("a" ++ "*")).rows := by
    simp [quick_filter_df, exT7, cellMatches, pyStrContains, pyLower, pyCellStr,
      pyStr, parsePieces, atomOf, metaChars, startsStar, rSearch, matchPre,
      amatch]
  have h2 := h h1
  simp [quick_filter_df, exT7, cellMatches, pyStrContains, pyLower, pyCellStr,
    pyStr, parsePieces, atomOf, metaChars, startsStar, rSearch, matchPre,
    amatch] at h2

theorem isPrefixOf_append_mono {n1 n2 l : List Char}
    (h : (n1 ++ n2).isPrefixOf l = true) : n1.isPrefixOf l = true := by
  rw [List.isPrefixOf_iff_prefix] at h ⊢
  exact (List.prefix_append n1 n2).trans h

theorem isSubB_append_mono {n1 n2 l : List Char}
    (h : isSubB (n1 ++ n2) l = true) : isSubB n1 l = true := by
  induction l with
  | nil =>
    rw [isSubB] at h ⊢
    exact isPrefixOf_append_mono h
  | cons c t ih =>
    rw [isSubB] at h ⊢
    rcases Bool.or_eq_true_iff.mp h with h1 | h1
    · exact Bool.or_eq_true_iff.mpr (Or.inl (isPrefixOf_append_mono h1))
    · exact Bool.or_eq_true_iff.mpr (Or.inr (ih h1))

theorem pyLower_append (a b : String) :
    pyLower (a ++ b) = pyLower a ++ pyLower b := by
  simp [pyLower]
  rfl

theorem isLitB_append_left {q1 q2 : String}
    (h : isLitB (pyLower (q1 ++ q2)) = true) : isLitB (pyLower q1) = true := by
  rw [pyLower_append] at h
  rw [isLitB] at h ⊢
  rw [String.data_append, List.all_append] at h
  exact (Bool.and_eq_true_iff.mp h).1

theorem str_append_empty_left {q1 q2 : String} (h : q1 ++ q2 = "") : q1 = "" := by
  have hd := congrArg String.data h
  rw [String.data_append] at hd
  have h1 := List.append_eq_nil.mp hd
  cases q1
  exact congrArg String.mk h1.1

/-- C7 amended: monotonicity in query extension holds for queries that stay
literal (no regex metacharacters) after case-folding: every row kept by
`q1 ++ q2` is kept by `q1`. -/
theorem quick_filter_monotone_lit (df : Table) (q1 q2 : String)
    (hl : isLitB (pyLower (q1 ++ q2)) = true) :
    (quick_filter_df df (q1 ++ q2)).rows ⊆ (quick_filter_df df q1).rows := by
  by_cases hg : (decide ((q1 ++ q2) = "") || df.rows.isEmpty || df.cols.isEmpty) = true
  · have h12 : quick_filter_df df (q1 ++ q2) = df := by
      rw [quick_filter_df, if_pos hg]
    rw [h12]
    simp only [Bool.or_eq_true, decide_eq_true_eq] at hg
    rcases hg with (hq | hr) | hc
    · rw [quick_filter_df, if_pos (by simp [str_append_empty_left hq])]
      exact List.Subset.refl _
    · rw [quick_filter_df, if_pos (by simp [hr])]
      exact List.Subset.refl _
    · rw [quick_filter_df, if_pos (by simp [hc])]
      exact List.Subset.refl _
  · simp only [Bool.or_eq_true, decide_eq_true_eq, not_or] at hg
    obtain ⟨⟨hq12, hrow⟩, hcol⟩ := hg
    have h12 : quick_filter_df df (q1 ++ q2) = Table.mk df.cols
        (df.rows.filter (fun r => r.any (cellMatches (pyLower (q1 ++ q2))))) := by
      rw [quick_filter_df, if_neg (by simp [hq12, hrow, hcol])]
    rw [h12]
    by_cases hq1 : q1 = ""
    · rw [quick_filter_df, if_pos (by simp [hq1])]
      exact fun r hr => (List.mem_filter.mp hr).1
    · rw [quick_filter_df, if_neg (by simp [hq1, hrow, hcol])]
      intro r hr
      rw [List.mem_filter] at hr ⊢
      refine ⟨hr.1, ?_⟩
      rw [List.any_eq_true] at hr ⊢
      obtain ⟨c, hc, hmc⟩ := hr.2
      refine ⟨c, hc, ?_⟩
      rw [cellMatches, pyStrContains_lit _ _ hl] at hmc
      rw [cellMatches, pyStrContains_lit _ _ (isLitB_append_left hl)]
      rw [pyLower_append, String.data_append] at hmc
      exact isSubB_append_mono hmc

/-- Witness for C7 (amended): with literal queries "a" and "b", every row
kept by "ab" is kept by "a". -/
theorem quick_filter_monotone_lit_witness :
    isLitB (pyLower ("a" ++ "b")) = true
      ∧ (quick_filter_df exT7 ("a" ++ "b")).rows ⊆
          (quick_filter_df exT7 "a").rows :=
  ⟨by decide, quick_filter_monotone_lit exT7 "a" "b" (by decide)⟩

/-!
## Record normalizer (`df_from_list_of_dicts`, `viewer.py` lines 88-93)

`pd.json_normalize` flattens nested mappings into dotted-path columns
(`nested_to_record` with separator "."), takes the column set as the
first-seen union of the flattened keys across the records, fills missing
keys with the NaN marker, and produces one row per record. A record that is
not a mapping makes `json_normalize` raise `AttributeError` (it calls
`.values()` / `.items()` on each record); there is no protection in
`df_from_list_of_dicts`, so the whole build fails.
-/

mutual

/-- Flattening of one field of a record: a mapping value is expanded into
its own flattened fields under `pre ++ key ++ "."`; any other value is a
leaf. -/
def flattenKV (pre : String) (kv : String × Json) : List (String × Json) :=
  match kv with
  | (k, Json.obj kvs) => flattenObj (pre ++ k ++ ".") kvs
  | (k, v) => [(pre ++ k, v)]
termination_by sizeOf kv
decreasing_by
  all_goals first | (simp; omega) | simp | omega

def flattenObj (pre : String) (kvs : List (String × Json)) : List (String × Json) :=
  match kvs with
  | [] => []
  | kv :: t => flattenKV pre kv ++ flattenObj pre t
termination_by sizeOf kvs
decreasing_by
  all_goals first | (simp; omega) | simp | omega

end

def asObj : Json → Option (List (String × Json))
  | Json.obj kvs => some kvs
  | _ => none

/-- All records as mappings, or `none` as soon as one is not a mapping. -/
def allObjs : List Json → Option (List (List (String × Json)))
  | [] => some []
  | x :: t =>
    match asObj x, allObjs t with
    | some r, some rs => some (r :: rs)
    | _, _ => none

/-- The flattened (dotted-path) keys of one record. -/
def recordKeys (r : List (String × Json)) : List String :=
  (flattenObj "" r).map Prod.fst

def insertCol (acc : List String) (k : String) : List String :=
  if acc.contains k then acc else acc ++ [k]

/-- First-seen union of the flattened keys across the records. -/
def unionCols (recs : List (List (String × Json))) : List String :=
  recs.foldl (fun acc r => (recordKeys r).foldl insertCol acc) []

/-- One output row: for each column the record's flattened value, or the
missing-value marker. -/
def rowFor (cols : List String) (r : List (String × Json)) : List Cell :=
  cols.map (fun c =>
    match (flattenObj "" r).lookup c with
    | some v => Cell.val v
    | none => Cell.nan)

/-- Model of `pd.json_normalize` on a non-empty record list. -/
def json_normalize (items : List Json) : Except String Table :=
  match allObjs items with
  | some recs =>
    Except.ok (Table.mk (unionCols recs) (recs.map (fun r => rowFor (unionCols recs) r)))
  | none => Except.error "AttributeError: record is not a mapping"

/-- Source: `viewer.py` lines 88-93. On an empty input an empty frame is
returned, with `default_columns` as columns when that argument is truthy
(Python `if default_columns:` — `None` and `[]` both fall through to a
frame with no columns); otherwise `pd.json_normalize` runs. -/
def df_from_list_of_dicts (items : List Json)
    (default_columns : Option (List String)) : Except String Table :=
  if items.isEmpty then
    match default_columns with
    | some cs => if cs.isEmpty then Except.ok (Table.mk [] []) else Except.ok (Table.mk cs [])
    | none => Except.ok (Table.mk [] [])
  else json_normalize items

theorem allObjs_length {items : List Json} {recs : List (List (String × Json))}
    (h : allObjs items = some recs) : recs.length = items.length := by
  induction items generalizing recs with
  | nil =>
    rw [allObjs] at h
    cases h
    rfl
  | cons x t ih =>
    rw [allObjs] at h
    cases hx : asObj x with
    | none => rw [hx] at h; cases h
    | some r =>
      rw [hx] at h
      cases ht : allObjs t with
      | none => rw [ht] at h; cases h
      | some rs =>
        rw [ht] at h
        cases h
        simp [ih ht]

theorem allObjs_none {items : List Json}
    (h : ∃ x ∈ items, asObj x = none) : allObjs items = none := by
  induction items with
  | nil => obtain ⟨x, hx, _⟩ := h; cases hx
  | cons y t ih =>
    obtain ⟨x, hx, hnone⟩ := h
    rw [allObjs]
    rcases List.mem_cons.mp hx with rfl | hx1
    · rw [hnone]
    · rw [ih ⟨x, hx1, hnone⟩]
      cases asObj y <;> rfl

theorem mem_insertCol (acc : List String) (k c : String) :
    c ∈ insertCol acc k ↔ c ∈ acc ∨ c = k := by
  rw [insertCol]
  split
  · rename_i hk
    constructor
    · exact Or.inl
    · rintro (h | rfl)
      · exact h
      · simpa using hk
  · simp

theorem mem_foldl_insertCol (ks : List String) (acc : List String) (c : String) :
    c ∈ ks.foldl insertCol acc ↔ c ∈ acc ∨ c ∈ ks := by
  induction ks generalizing acc with
  | nil => simp
  | cons k kt ih =>
    rw [List.foldl_cons, ih, mem_insertCol]
    constructor
    · rintro ((h | rfl) | h)
      · exact Or.inl h
      · exact Or.inr (List.mem_cons_self _ _)
      · exact Or.inr (List.mem_cons_of_mem _ h)
    · rintro (h | h)
      · exact Or.inl (Or.inl h)
      · rcases List.mem_cons.mp h with rfl | h1
        · exact Or.inl (Or.inr rfl)
        · exact Or.inr h1

theorem mem_unionCols_aux (recs : List (List (String × Json)))
    (acc : List String) (c : String) :
    c ∈ recs.foldl (fun acc r => (recordKeys r).foldl insertCol acc) acc ↔
      c ∈ acc ∨ ∃ r ∈ recs, c ∈ recordKeys r := by
  induction recs generalizing acc with
  | nil => simp
  | cons r rt ih =>
    rw [List.foldl_cons, ih, mem_foldl_insertCol]
    constructor
    · rintro ((h | h) | ⟨r1, hr1, hc1⟩)
      · exact Or.inl h
      · exact Or.inr ⟨r, List.mem_cons_self _ _, h⟩
      · exact Or.inr ⟨r1, List.mem_cons_of_mem _ hr1, hc1⟩
    · rintro (h | ⟨r1, hr1, hc1⟩)
      · exact Or.inl (Or.inl h)
      · rcases List.mem_cons.mp hr1 with rfl | h2
        · exact Or.inl (Or.inr hc1)
        · exact Or.inr ⟨r1, h2, hc1⟩

theorem mem_unionCols (recs : List (List (String × Json))) (c : String) :
    c ∈ unionCols recs ↔ ∃ r ∈ recs, c ∈ recordKeys r := by
  rw [unionCols, mem_unionCols_aux]
  simp

/-- C4: normalize on the empty input returns an empty table whose column set
is `defaultColumns` when provided and empty otherwise (a provided-but-empty
default column list also yields no columns, which equals it); on a non-empty
input of mapping records it returns a table whose column set is, as a set,
the union of the (dotted-path flattened) keys across the records and which
has one row per record — every mapping record normalizes successfully, so
the row count equals the number of successfully normalized records, which
here is the input length. -/
theorem df_from_list_props :
    (df_from_list_of_dicts [] none = Except.ok (Table.mk [] []))
    ∧ (∀ cs : List String,
        df_from_list_of_dicts [] (some cs) = Except.ok (Table.mk cs []))
    ∧ (∀ (items : List Json) (recs : List (List (String × Json)))
        (dc : Option (List String)), items ≠ [] → allObjs items = some recs →
        ∃ t : Table, df_from_list_of_dicts items dc = Except.ok t
          ∧ t.rows.length = items.length
          ∧ (∀ c : String, c ∈ t.cols ↔ ∃ r ∈ recs, c ∈ recordKeys r)) := by
  refine ⟨rfl, ?_, ?_⟩
  · intro cs
    cases cs <;> simp [df_from_list_of_dicts]
  · intro items recs dc hne hobjs
    have hne2 : items.isEmpty = false := by
      cases items
      · exact (hne rfl).elim
      · rfl
    rw [df_from_list_of_dicts.eq_def, if_neg (by simp [hne2]), json_normalize, hobjs]
    refine ⟨_, rfl, ?_, ?_⟩
    · simp [allObjs_length hobjs]
    · intro c
      exact mem_unionCols recs c

def exItemsC4 : List Json :=
  [Json.obj [("PID", Json.num 1), ("Имя", Json.str "a")],
   Json.obj [("PID", Json.num 2), ("Имя", Json.str "b"), ("Путь", Json.str "/x")]]

def exRecsC4 : List (List (String × Json)) :=
  [[("PID", Json.num 1), ("Имя", Json.str "a")],
   [("PID", Json.num 2), ("Имя", Json.str "b"), ("Путь", Json.str "/x")]]

/-- Witness for C4 at the spec's scenario document: two process records with
key sets {PID, Имя} and {PID, Имя, Путь}. -/
theorem df_from_list_props_witness :
    exItemsC4 ≠ [] ∧ allObjs exItemsC4 = some exRecsC4
      ∧ ∃ t : Table, df_from_list_of_dicts exItemsC4 none = Except.ok t
          ∧ t.rows.length = exItemsC4.length
          ∧ (∀ c : String, c ∈ t.cols ↔ ∃ r ∈ exRecsC4, c ∈ recordKeys r) :=
  ⟨by simp [exItemsC4], by rfl,
   df_from_list_props.2.2 exItemsC4 exRecsC4 none (by simp [exItemsC4]) (by rfl)⟩

def exBadItems : List Json := [Json.obj [("a", Json.num 1)], Json.str "bad"]

/-- C5 counterexample: with one well-formed record and one malformed (string)
record the build does not produce a table with one row for the well-formed
record — `json_normalize` raises `AttributeError` and no table is emitted at
all. -/
theorem df_from_list_malformed_counterexample :
    df_from_list_of_dicts exBadItems none =
        Except.error "AttributeError: record is not a mapping"
      ∧ (df_from_list_of_dicts exBadItems none).toOption = none := by
  constructor <;> rfl

/-- C5 amended: malformed entries are not skipped: a single non-mapping
entry anywhere in the record list aborts the whole normalization with an
error, and no partial table is produced. -/
theorem df_from_list_malformed (items : List Json) (dc : Option (List String))
    (h : ∃ x ∈ items, asObj x = none) :
    df_from_list_of_dicts items dc =
      Except.error "AttributeError: record is not a mapping" := by
  have hne2 : items.isEmpty = false := by
    obtain ⟨x, hx, _⟩ := h
    cases items
    · cases hx
    · rfl
  rw [df_from_list_of_dicts.eq_def, if_neg (by simp [hne2]), json_normalize,
    allObjs_none h]

/-- Witness for C5 (amended) at the concrete two-record list with one
malformed entry. -/
theorem df_from_list_malformed_witness :
    (∃ x ∈ exBadItems, asObj x = none)
      ∧ df_from_list_of_dicts exBadItems none =
          Except.error "AttributeError: record is not a mapping" :=
  ⟨⟨Json.str "bad", by simp [exBadItems], rfl⟩,
   df_from_list_malformed exBadItems none
     ⟨Json.str "bad", by simp [exBadItems], rfl⟩⟩

/-!
## Section extraction (`viewer.py` lines 278-289)

The loaded scan document is a JSON object, modelled by its field list. Of
the four filesystem-snapshot sections, only the appdata/temp and the
recycle-bin extractions carry the `... or ensure_list(data.get(...))`
root-level fallback; the downloads and desktop extractions read only the
nested snapshot field.
-/

def dataGet (data : List (String × Json)) (k : String) : Json :=
  pyGetD data k Json.null

/-- `file_snapshot = data.get("Снимок файловой системы") or {}`. -/
def file_snapshot (data : List (String × Json)) : Json :=
  pyOrJ (dataGet data "Снимок файловой системы") (Json.obj [])

/-- `file_snapshot.get(k)`: raises `AttributeError` when the snapshot value
is a truthy non-mapping (which survives the `or {}`). -/
def snapGet (data : List (String × Json)) (k : String) : Except String Json :=
  match file_snapshot data with
  | Json.obj kvs => Except.ok (pyGetD kvs k Json.null)
  | _ => Except.error "AttributeError: snapshot is not a mapping"

/-- Python `a or b` on two lists: the left one if non-empty. -/
def pyOrList (a b : List Json) : List Json := if a.isEmpty then b else a

/-- `downloads_files = ensure_list(file_snapshot.get("Файлы из Загрузок"))`
— no root-level fallback. -/
def downloads_files (data : List (String × Json)) : Except String (List Json) :=
  match snapGet data "Файлы из Загрузок" with
  | Except.ok v => Except.ok (ensure_list v)
  | Except.error e => Except.error e

/-- `desktop_files = ensure_list(file_snapshot.get("Файлы рабочего стола"))`
— no root-level fallback. -/
def desktop_files (data : List (String × Json)) : Except String (List Json) :=
  match snapGet data "Файлы рабочего стола" with
  | Except.ok v => Except.ok (ensure_list v)
  | Except.error e => Except.error e

/-- `appdata_files = ensure_list(file_snapshot.get("Файлы из AppData")) or
ensure_list(data.get("Файлы из AppData"))`. -/
def appdata_files (data : List (String × Json)) : Except String (List Json) :=
  match snapGet data "Файлы из AppData" with
  | Except.ok v =>
    Except.ok (pyOrList (ensure_list v) (ensure_list (dataGet data "Файлы из AppData")))
  | Except.error e => Except.error e

/-- `deleted_files = ensure_list(file_snapshot.get("Удаленные файлы (Корзина)"))
or ensure_list(data.get("Удаленные файлы (Корзина)"))`. -/
def deleted_files (data : List (String × Json)) : Except String (List Json) :=
  match snapGet data "Удаленные файлы (Корзина)" with
  | Except.ok v =>
    Except.ok (pyOrList (ensure_list v) (ensure_list (dataGet data "Удаленные файлы (Корзина)")))
  | Except.error e => Except.error e

/-- The extraction rule as the claim states it, for an arbitrary snapshot
section: check both locations, the root-level list being used iff the
nested list is absent or empty. -/
def specSectionExtract (data : List (String × Json)) (k : String) :
    Except String (List Json) :=
  match snapGet data k with
  | Except.ok v => Except.ok (pyOrList (ensure_list v) (ensure_list (dataGet data k)))
  | Except.error e => Except.error e

def exDoc9 : List (String × Json) :=
  [("Файлы из Загрузок", Json.arr [Json.obj [("a", Json.num 1)]])]

/-- C9 counterexample: a document whose downloads list sits at the document
root (no filesystem-snapshot object): the claim's two-location rule returns
the root-level list, but the code returns the empty list — the downloads
section never consults the document root. -/
theorem sections_fallback_counterexample :
    downloads_files exDoc9 = Except.ok []
      ∧ specSectionExtract exDoc9 "Файлы из Загрузок" =
          Except.ok [Json.obj [("a", Json.num 1)]]
      ∧ downloads_files exDoc9 ≠ specSectionExtract exDoc9 "Файлы из Загрузок" := by
  refine ⟨rfl, rfl, ?_⟩
  intro h
  rw [show downloads_files exDoc9 = Except.ok [] from rfl] at h
  rw [show specSectionExtract exDoc9 "Файлы из Загрузок" =
    Except.ok [Json.obj [("a", Json.num 1)]] from rfl] at h
  simp at h

/-- C9 amended: only the appdata/temp and recycle-bin sections check both
locations (root-level list used iff the nested list is absent or empty, via
Python `or` on the two `ensure_list` results); the downloads and desktop
sections read only the nested snapshot list. -/
theorem sections_fallback (data : List (String × Json))
    (snap : List (String × Json))
    (h : file_snapshot data = Json.obj snap) :
    appdata_files data = Except.ok
        (pyOrList (ensure_list (pyGetD snap "Файлы из AppData" Json.null))
          (ensure_list (dataGet data "Файлы из AppData")))
      ∧ deleted_files data = Except.ok
        (pyOrList (ensure_list (pyGetD snap "Удаленные файлы (Корзина)" Json.null))
          (ensure_list (dataGet data "Удаленные файлы (Корзина)")))
      ∧ downloads_files data = Except.ok
        (ensure_list (pyGetD snap "Файлы из Загрузок" Json.null))
      ∧ desktop_files data = Except.ok
        (ensure_list (pyGetD snap "Файлы рабочего стола" Json.null)) := by
  have hsnap : ∀ k : String, snapGet data k = Except.ok (pyGetD snap k Json.null) := by
    intro k
    simp [snapGet, h]
  refine ⟨?_, ?_, ?_, ?_⟩
  · simp [appdata_files, hsnap]
  · simp [deleted_files, hsnap]
  · simp [downloads_files, hsnap]
  · simp [desktop_files, hsnap]

def exDoc9w : List (String × Json) :=
  [("Снимок файловой системы", Json.obj [("Файлы из AppData", Json.arr [])]),
   ("Файлы из AppData", Json.arr [Json.str "rootfile"])]

/-- Witness for C9 (amended): with an empty nested appdata list and a
non-empty root-level one, the appdata section falls back to the root list
while the downloads section stays empty. -/
theorem sections_fallback_witness :
    file_snapshot exDoc9w = Json.obj [("Файлы из AppData", Json.arr [])]
      ∧ appdata_files exDoc9w = Except.ok [Json.str "rootfile"]
      ∧ downloads_files exDoc9w = Except.ok [] := by
  refine ⟨rfl, ?_, ?_⟩
  · rw [(sections_fallback exDoc9w [("Файлы из AppData", Json.arr [])] rfl).1]
    rfl
  · rw [(sections_fallback exDoc9w [("Файлы из AppData", Json.arr [])] rfl).2.2.1]
    rfl

/-- C10: `ensure_list` is total over arbitrary JSON field values: an absent
field (Python `get` default `None`) and an explicit null both yield the
empty list, a list value is returned unchanged, and any other value —
scalar or single mapping — is wrapped into a one-element list. -/
theorem ensure_list_total :
    (∀ (kvs : List (String × Json)) (k : String), kvs.lookup k = none →
      ensure_list (pyGetD kvs k Json.null) = [])
    ∧ ensure_list Json.null = []
    ∧ (∀ xs : List Json, ensure_list (Json.arr xs) = xs)
    ∧ (∀ v : Json, (∀ xs : List Json, v ≠ Json.arr xs) → v ≠ Json.null →
        ensure_list v = [v]) := by
  refine ⟨?_, rfl, fun xs => rfl, ?_⟩
  · intro kvs k h
    rw [pyGetD, h]
    rfl
  · intro v harr hnull
    cases v with
    | null => exact (hnull rfl).elim
    | arr xs => exact (harr xs rfl).elim
    | bool b => rfl
    | num n => rfl
    | str s => rfl
    | obj kvs => rfl

/-- Witness for C10: an absent key yields `[]`, a list value is unchanged, a
scalar is wrapped. -/
theorem ensure_list_total_witness :
    ([] : List (String × Json)).lookup "k" = none
      ∧ ensure_list (pyGetD [] "k" Json.null) = []
      ∧ ensure_list (Json.arr [Json.num 1]) = [Json.num 1]
      ∧ ensure_list (Json.str "x") = [Json.str "x"] :=
  ⟨rfl, ensure_list_total.1 [] "k" rfl, ensure_list_total.2.2.1 [Json.num 1],
   ensure_list_total.2.2.2 (Json.str "x") (fun xs h => Json.noConfusion h)
     (fun h => Json.noConfusion h)⟩
